import Mathlib

/-!
Shallow embedding of the AWM (Appwrite migration) tool, covering the parts
exercised by the verification claims: the distributed lock manager
(`AppwriteLockManager.acquire` / `release` and `AWMImproved.withLock`), the
change calculator (`calculateChanges`, `calculateRelationships`), the change
executor (`applyChanges`), the rollback engine, index-key sanitization
(`sanitizeIndexKey`), index field parsing (`parseIndexFields`) and the
kebab-case identifier derivation (`toKebabCase`).

Conventions of the embedding:
* JS string values are Lean `String`s; absent / `undefined` / `null` string
  fields, where a JS truthiness check distinguishes them, are `Option String`
  (with `some ""` kept distinct, since `""` is falsy in JS and the code
  relies on that).
* Timestamps (`Date` values) are integers, milliseconds since the epoch.
* The remote document store is passed in and returned explicitly; a lock
  collection keyed by md5 of the lock id is modelled as the record for that
  lock id (the md5 document id is a fixed injective renaming of the id).
* `crypto.createHash('md5')` is an external library call; functions that use
  it take the hex-digest function `md5hex : String → String` as an explicit
  collaborator parameter.
* Thrown JS exceptions are `Except` errors.
-/

namespace AWM

/-! ### Character and string helpers (ASCII, mirroring the regexes used) -/

def isLowerAZ (c : Char) : Bool := 'a' ≤ c && c ≤ 'z'

def isUpperAZ (c : Char) : Bool := 'A' ≤ c && c ≤ 'Z'

def isDigit09 (c : Char) : Bool := '0' ≤ c && c ≤ '9'

/-- The character class `[a-zA-Z0-9]` of the sanitizer regexes. -/
def isAlnumAZ09 (c : Char) : Bool := isLowerAZ c || isUpperAZ c || isDigit09 c

/-- The character class `[a-zA-Z0-9._-]` kept by `sanitizeIndexKey`. -/
def isKeyAllowed (c : Char) : Bool :=
  isAlnumAZ09 c || c == '.' || c == '_' || c == '-'

/-- ASCII lowercasing of one character (`String.prototype.toLowerCase`
restricted to the ASCII range actually exercised by the tool). -/
def lowerAZ (c : Char) : Char :=
  if isUpperAZ c then Char.ofNat (c.toNat + 32) else c

/-- `s.toLowerCase()` on ASCII data. -/
def lowerStr (s : String) : String := ⟨s.toList.map lowerAZ⟩

/-- Does `pat` occur at the start of `l`? (Mirrors `String.prototype.startsWith`.) -/
def strStarts : List Char → List Char → Bool
  | [], _ => true
  | _ :: _, [] => false
  | a :: as, b :: bs => a == b && strStarts as bs

/-- Does `pat` occur anywhere inside `l`? (Mirrors `String.prototype.includes`.) -/
def strHasSub (pat : List Char) : List Char → Bool
  | [] => strStarts pat []
  | l@(_ :: t) => strStarts pat l || strHasSub pat t

/-- `s.includes(pat)` for JS strings. -/
def strContainsB (s pat : String) : Bool := strHasSub pat.toList s.toList

/-- `a || b` on JS strings held as `Option String`: an absent or empty
string falls back to the default. -/
def orElseStr (o : Option String) (d : String) : String :=
  match o with
  | some s => if s = "" then d else s
  | none => d

/-- `Except` success test. -/
def isOkE {ε α : Type} : Except ε α → Bool
  | .ok _ => true
  | .error _ => false

/-! ### Lock manager (`AppwriteLockManager`, src/unnamed/part_001 lines 560-626)

The lock collection holds at most one document per lock id (document id =
md5 of `lock:<lockId>`); the state threaded through `acquire`/`release` is
that single optional document.  `createDocument` on an existing id fails
with HTTP 409, which is the only create failure modelled (other transport
failures are environmental).  The `getDocument` race branch
(`if (!existing) return this.acquire(...)`) is unreachable in this
sequential model and is not represented. -/

structure LockRecord where
  lockId : String
  owner : String
  status : String
  createdAt : Int
  expiresAt : Option Int
  deriving Repr, DecidableEq

/-- `expiresAt = ttlSeconds ? new Date(now.getTime() + ttlSeconds * 1000) : null`. -/
def mkExpiresAt (now : Int) (ttlSeconds : Nat) : Option Int :=
  if ttlSeconds = 0 then none else some (now + ttlSeconds * 1000)

/-- `const expired = existing.expires_at && new Date(existing.expires_at) < new Date()`. -/
def lockExpired (r : LockRecord) (now : Int) : Bool :=
  match r.expiresAt with
  | some e => decide (e < now)
  | none => false

/-- The contention message `Lock '<id>' is held by <owner||'unknown'> since <created>`. -/
def contentionMsg (lockId : String) (r : LockRecord) : String :=
  "Lock " ++ lockId ++ " is held by " ++
    (if r.owner = "" then "unknown" else r.owner) ++ " since " ++ toString r.createdAt

/-- `AppwriteLockManager.acquire(lockId, { owner, ttlSeconds, force })`. -/
def acquire (st : Option LockRecord) (now : Int) (lockId owner : String)
    (ttlSeconds : Nat) (force : Bool) : Except String (Option LockRecord) :=
  match st with
  | none =>
      -- createDocument succeeds: fresh lock document in state 'locked'
      .ok (some ⟨lockId, owner, "locked", now, mkExpiresAt now ttlSeconds⟩)
  | some existing =>
      -- createDocument failed with 409; inspect the existing document
      let expired := lockExpired existing now
      let sameOwner := existing.owner == owner
      if !force && !expired && !sameOwner then
        .error (contentionMsg lockId existing)
      else
        -- updateDocument overwrites owner/status/created_at/expires_at
        .ok (some { existing with
          owner := owner, status := "locked",
          createdAt := now, expiresAt := mkExpiresAt now ttlSeconds })

/-- The denial message `Cannot release lock '<id>' held by <owner>`. -/
def releaseDeniedMsg (lockId heldBy : String) : String :=
  "Cannot release lock " ++ lockId ++ " held by " ++ heldBy

/-- `AppwriteLockManager.release(lockId, owner)`.  Note that the owner
check fires only when both the caller's owner and the stored owner are
truthy (non-empty): `if (owner && existing.owner && existing.owner !== owner)`. -/
def release (st : Option LockRecord) (lockId owner : String) :
    Except String (Option LockRecord) :=
  match st with
  | none => .ok none
  | some existing =>
      if owner != "" && existing.owner != "" && existing.owner != owner then
        .error (releaseDeniedMsg lockId existing.owner)
      else
        .ok none

/-! ### `AWMImproved.withLock` (src/unnamed/part_000 lines 1740-1751)

`withLock` checks credentials, acquires the lock (with the default
`ttlSeconds = 600` and the instance's `force` flag), runs the body inside
`try`, and releases in `finally`.  The bodies of the four mutating
operations never touch the lock collection, so the body is modelled as a
pure `Except` outcome.  Per JS semantics an error thrown by the `finally`
release supplants the body's outcome. -/

def withLock {α : Type} (hasCreds : Bool) (st : Option LockRecord) (now : Int)
    (lockId owner : String) (force : Bool) (body : Except String α) :
    Except String α × Option LockRecord :=
  if !hasCreds then
    (.error "Appwrite credentials are required for this operation", st)
  else
    match acquire st now lockId owner 600 force with
    | .error e => (.error e, st)
    | .ok st1 =>
        match release st1 lockId owner with
        | .error e => (.error e, st1)
        | .ok st2 => (body, st2)

/-- `apply()` = `withLock('schema-apply', ...)` (src/unnamed/part_000 line 1515). -/
def applyOp {α : Type} (hasCreds : Bool) (st : Option LockRecord) (now : Int)
    (owner : String) (force : Bool) (body : Except String α) :
    Except String α × Option LockRecord :=
  withLock hasCreds st now "schema-apply" owner force body

/-- `applyRelationships()` = `withLock('schema-relationships', ...)`. -/
def relationshipsOp {α : Type} (hasCreds : Bool) (st : Option LockRecord) (now : Int)
    (owner : String) (force : Bool) (body : Except String α) :
    Except String α × Option LockRecord :=
  withLock hasCreds st now "schema-relationships" owner force body

/-- `rollback()` = `withLock('schema-rollback', ...)`. -/
def rollbackLockOp {α : Type} (hasCreds : Bool) (st : Option LockRecord) (now : Int)
    (owner : String) (force : Bool) (body : Except String α) :
    Except String α × Option LockRecord :=
  withLock hasCreds st now "schema-rollback" owner force body

/-- `reset()` = `withLock('schema-reset', ...)`. -/
def resetOp {α : Type} (hasCreds : Bool) (st : Option LockRecord) (now : Int)
    (owner : String) (force : Bool) (body : Except String α) :
    Except String α × Option LockRecord :=
  withLock hasCreds st now "schema-reset" owner force body

/-! ### `toKebabCase` (src/unnamed/part_000 line 2168)

`str.replace(/([a-z0-9])([A-Z])/g, '$1-$2').replace(/[\s_]+/g, '-').toLowerCase()`. -/

/-- First replace: insert `-` between a lowercase letter or digit and a
following uppercase letter.  The regex consumes both characters of a match,
but since the second character is uppercase it can never start a new match,
so the pairwise scan below is equivalent. -/
def kebabInsertHyphens : List Char → List Char
  | [] => []
  | [c] => [c]
  | a :: b :: rest =>
      if (isLowerAZ a || isDigit09 a) && isUpperAZ b then
        a :: '-' :: kebabInsertHyphens (b :: rest)
      else
        a :: kebabInsertHyphens (b :: rest)

/-- The class `[\s_]` of the second replace (ASCII whitespace and underscore). -/
def isSpaceOrUnderscore (c : Char) : Bool :=
  c == ' ' || c == '\t' || c == '\n' || c == '\r' || c == '\x0b' || c == '\x0c' || c == '_'

/-- Second replace: collapse each run of `[\s_]` to a single hyphen.
`inRun` records whether the previous character was part of such a run. -/
def collapseSpaceRuns (inRun : Bool) : List Char → List Char
  | [] => []
  | c :: rest =>
      if isSpaceOrUnderscore c then
        if inRun then collapseSpaceRuns true rest
        else '-' :: collapseSpaceRuns true rest
      else
        c :: collapseSpaceRuns false rest

def toKebabCase (s : String) : String :=
  ⟨(collapseSpaceRuns false (kebabInsertHyphens s.toList)).map lowerAZ⟩

/-! ### `sanitizeIndexKey` (src/unnamed/part_000 lines 2172-2183) -/

/-- `(key || '')` for a possibly absent argument. -/
def keyString : Option String → String
  | none => ""
  | some s => s

/-- `(key || '').replace(/^[^a-zA-Z0-9]+/, '').replace(/[^a-zA-Z0-9._-]/g, '_') || 'idx_hash'`. -/
def cleanKey (key : Option String) : String :=
  let stripped := (keyString key).toList.dropWhile (fun c => !isAlnumAZ09 c)
  let replaced := stripped.map (fun c => if isKeyAllowed c then c else '_')
  if replaced = [] then "idx_hash" else ⟨replaced⟩

/-- `s.slice(0, n)` (character based; the keys involved are ASCII). -/
def strTake (s : String) (n : Nat) : String := ⟨s.toList.take n⟩

/-- `AWMImproved.sanitizeIndexKey(key)`, with the md5 hex digest taken as a
collaborator parameter.  The hash is computed over `cleaned`, i.e. the
sanitized key before truncation. -/
def sanitizeIndexKey (md5hex : String → String) (key : Option String) : String :=
  let cleaned := cleanKey key
  if cleaned.length ≤ 36 then cleaned
  else "idx_" ++ strTake (md5hex cleaned) 28

/-! ### `parseIndexFields` (src/unnamed/part_000 lines 2129-2149) -/

/-- Splitting on `,` (JS `String.prototype.split(',')`): `acc` holds the
characters of the current token in reverse. -/
def splitCommaAux (acc : List Char) : List Char → List (List Char)
  | [] => [acc.reverse]
  | c :: rest =>
      if c == ',' then acc.reverse :: splitCommaAux [] rest
      else splitCommaAux (c :: acc) rest

/-- JS `String.prototype.trim()` on ASCII data. -/
def isJsSpace (c : Char) : Bool :=
  c == ' ' || c == '\t' || c == '\n' || c == '\r' || c == '\x0b' || c == '\x0c'

def trimChars (l : List Char) : List Char :=
  ((l.dropWhile isJsSpace).reverse.dropWhile isJsSpace).reverse

/-- `fieldString.split(',').map(t => t.trim()).filter(Boolean)`. -/
def tokenizeFields (s : String) : List String :=
  ((splitCommaAux [] s.toList).map trimChars).filterMap
    (fun t => if t.isEmpty then none else some ⟨t⟩)

/-- Is the token `asc`/`desc` up to case? -/
def isOrderTok (t : String) : Bool :=
  lowerStr t == "asc" || lowerStr t == "desc"

/-- `ASC`/`DESC` value stored for an order token. -/
def orderVal (t : String) : String :=
  if lowerStr t == "desc" then "DESC" else "ASC"

/-- One step of the token loop: an `asc`/`desc` token with at least one
field already collected sets `orders[fields.length - 1]`; any other token
is pushed as a field with a `null` order. -/
def indexFieldStep (acc : List String × List (Option String)) (token : String) :
    List String × List (Option String) :=
  if isOrderTok token && !acc.1.isEmpty then
    (acc.1, acc.2.set (acc.1.length - 1) (some (orderVal token)))
  else
    (acc.1 ++ [token], acc.2 ++ [none])

/-- The loop of `parseIndexFields` over an already tokenized list. -/
def parseTokens (tokens : List String) : List String × List (Option String) :=
  tokens.foldl indexFieldStep ([], [])

/-- `AWMImproved.parseIndexFields(fieldString)`: the pair `(fields, orders)`. -/
def parseIndexFields (s : String) : List String × List (Option String) :=
  parseTokens (tokenizeFields s)

/-! ### Schema and remote data model

A parsed schema (`parseSchema`) keeps collections in an object keyed by
name and attributes in an object keyed by attribute name; JS objects are
modelled as association lists in insertion order (object keys are unique,
stated as `Nodup` hypotheses where a theorem needs it).  Of the decorator
bag only `decorators.relationship` is consulted by the differ, so it is the
one decorator carried here.  Default values are carried opaquely (the diff
copies them verbatim). -/

structure RelDecorator where
  /-- the `to:` parameter of the decorator (`to` is reserved in Lean) -/
  relTo : Option String
  rtype : Option String
  twoWayKey : Option String
  onDelete : Option String
  deriving Repr, DecidableEq

structure SchemaAttr where
  type : String
  array : Bool
  required : Bool
  size : Option Int
  dflt : Option String
  /-- `decorators.relationship`: `some` iff the attribute carries a
  `@relationship(...)` decorator. -/
  relationship : Option RelDecorator
  deriving Repr, DecidableEq

structure SchemaIndex where
  /-- Parsed `@@index`/`@@unique` entries carry no name; the `index.name ||`
  fallback in the differ therefore normally takes the derived key. -/
  name : Option String
  /-- `index.attributes || index.fields || []`, collapsed to one list. -/
  attributes : List String
  orders : List (Option String)
  type : String
  deriving Repr, DecidableEq

structure SchemaCollection where
  name : String
  attributes : List (String × SchemaAttr)
  indexes : List SchemaIndex
  deriving Repr, DecidableEq

structure Schema where
  collections : List (String × SchemaCollection)
  deriving Repr, DecidableEq

/-- One attribute of `schemaInspector.describe()` output. -/
structure RemoteAttr where
  key : String
  type : String
  deriving Repr, DecidableEq

structure RemoteIndex where
  key : String
  deriving Repr, DecidableEq

structure RemoteCollection where
  attributes : List RemoteAttr
  indexes : List RemoteIndex
  deriving Repr, DecidableEq

/-- `describe()` returns a `Map` from kebab-cased collection id to remote
collection; modelled as an association list with unique keys. -/
def RemoteState := List (String × RemoteCollection)

/-- `remote.get(collId)`. -/
def remoteGet (remote : RemoteState) (collId : String) : Option RemoteCollection :=
  List.lookup collId remote

/-! ### Change set records (`calculateChanges` output shape) -/

structure CollectionCreate where
  id : String
  name : String
  attributes : List (String × SchemaAttr)
  indexes : List SchemaIndex
  deriving Repr, DecidableEq

structure AttributeCreate where
  collection_id : String
  key : String
  type : String
  array : Bool
  required : Bool
  size : Option Int
  dflt : Option String
  deriving Repr, DecidableEq

structure IndexCreate where
  collection_id : String
  key : String
  type : String
  attributes : List String
  orders : List (Option String)
  deriving Repr, DecidableEq

structure Changes where
  collections : List CollectionCreate
  attributes : List AttributeCreate
  indexes : List IndexCreate
  deriving Repr, DecidableEq

/-- `index.name || `idx_${(index.attributes || index.fields || []).join('_')}``. -/
def rawIndexKey (i : SchemaIndex) : String :=
  orElseStr i.name ("idx_" ++ String.intercalate "_" i.attributes)

/-- The `CollectionCreate` pushed for a declared collection absent remotely. -/
def mkCollectionCreate (name : String) (coll : SchemaCollection) : CollectionCreate :=
  ⟨toKebabCase name, if coll.name = "" then name else coll.name,
    coll.attributes, coll.indexes⟩

/-- The `AttributeCreate` pushed for a declared attribute absent remotely. -/
def mkAttributeCreate (collId attrName : String) (attr : SchemaAttr) : AttributeCreate :=
  ⟨collId, attrName, attr.type, attr.array, attr.required, attr.size, attr.dflt⟩

/-- Per-collection contribution to `changes.collections`. -/
def collCreateOf (remote : RemoteState) (nc : String × SchemaCollection) :
    Option CollectionCreate :=
  match remoteGet remote (toKebabCase nc.1) with
  | none => some (mkCollectionCreate nc.1 nc.2)
  | some _ => none

/-- Per-collection contribution to `changes.attributes`: relationship-
decorated attributes are skipped, the rest are diffed against the remote
attribute key set. -/
def attrCreatesOf (remote : RemoteState) (nc : String × SchemaCollection) :
    List AttributeCreate :=
  match remoteGet remote (toKebabCase nc.1) with
  | none => []
  | some rc =>
      nc.2.attributes.filterMap (fun na =>
        if na.2.relationship.isSome then none
        else if (rc.attributes.map RemoteAttr.key).contains na.1 then none
        else some (mkAttributeCreate (toKebabCase nc.1) na.1 na.2))

/-- The `IndexCreate` pushed for a declared index absent remotely
(`type: index.type || 'key'`). -/
def mkIndexCreate (collId key : String) (i : SchemaIndex) : IndexCreate :=
  ⟨collId, key, if i.type = "" then "key" else i.type, i.attributes, i.orders⟩

/-- Per-collection contribution to `changes.indexes`: keys are sanitized
before the diff against the remote index key set. -/
def indexCreatesOf (md5hex : String → String) (remote : RemoteState)
    (nc : String × SchemaCollection) : List IndexCreate :=
  match remoteGet remote (toKebabCase nc.1) with
  | none => []
  | some rc =>
      nc.2.indexes.filterMap (fun i =>
        if (rc.indexes.map RemoteIndex.key).contains
            (sanitizeIndexKey md5hex (some (rawIndexKey i))) then none
        else some (mkIndexCreate (toKebabCase nc.1)
          (sanitizeIndexKey md5hex (some (rawIndexKey i))) i))

/-- `AWMImproved.calculateChanges(schema)` (src/unnamed/part_000 lines
1765-1829), with `remote = schemaInspector.describe()` passed explicitly.
The single loop over `schema.collections`, pushing into the three growing
lists, is rendered as the three per-collection traversals that yield the
same lists in the same order. -/
def calculateChanges (md5hex : String → String) (schema : Schema)
    (remote : RemoteState) : Changes :=
  { collections := schema.collections.filterMap (collCreateOf remote)
    attributes := schema.collections.flatMap (attrCreatesOf remote)
    indexes := schema.collections.flatMap (indexCreatesOf md5hex remote) }

/-! ### `calculateRelationships` (src/unnamed/part_000 lines 1848-1878) -/

structure PendingRel where
  collection : String
  key : String
  to_collection : String
  type : String
  two_way_key : Option String
  on_delete : String
  deriving Repr, DecidableEq

/-- The keys of remote attributes of type `relationship` for a collection
(empty when the collection is absent remotely: `remoteColl?.attributes || []`). -/
def remoteRelationshipKeys (remote : RemoteState) (collId : String) : List String :=
  let attrs : List RemoteAttr :=
    match remoteGet remote collId with
    | none => []
    | some rc => rc.attributes
  (attrs.filter (fun a => a.type == "relationship")).map RemoteAttr.key

/-- The pending relationship record pushed for a declared relationship
attribute whose key is not a remote relationship attribute. -/
def mkPendingRel (collId attrName : String) (attr : SchemaAttr)
    (rel : RelDecorator) : PendingRel :=
  ⟨collId, attrName, toKebabCase (orElseStr rel.relTo attr.type),
    orElseStr rel.rtype "many-to-one", rel.twoWayKey, orElseStr rel.onDelete "restrict"⟩

/-- Per-collection contribution to the pending relationship list. -/
def pendingRelsOf (remote : RemoteState) (nc : String × SchemaCollection) :
    List PendingRel :=
  nc.2.attributes.filterMap (fun na =>
    match na.2.relationship with
    | none => none
    | some rel =>
        if (remoteRelationshipKeys remote (toKebabCase nc.1)).contains na.1 then none
        else some (mkPendingRel (toKebabCase nc.1) na.1 na.2 rel))

/-- `AWMImproved.calculateRelationships(schema)`. -/
def calculateRelationships (schema : Schema) (remote : RemoteState) :
    List PendingRel :=
  schema.collections.flatMap (pendingRelsOf remote)

/-! ### Migration executor (`applyChanges`, src/unnamed/part_000 lines 1880-1935)

Collection and attribute creation shell out through `execSync`; index
creation goes through the HTTP client's `ensureIndex`.  Errors carry the
fields the handlers inspect: `status` (HTTP status, absent on `execSync`
errors), `stderr` (child process output, absent on HTTP errors) and a
message. -/

structure AwError where
  status : Option Nat
  stderr : Option String
  message : String
  deriving Repr, DecidableEq

/-- `error.stderr?.toString()?.includes('already exists')`. -/
def stderrHasAlreadyExists (e : AwError) : Bool :=
  match e.stderr with
  | some s => strContainsB s "already exists"
  | none => false

/-- Payload handed to `appwriteClient.ensureIndex`. -/
structure IndexPayload where
  key : String
  type : String
  attributes : List String
  orders : List String
  deriving Repr, DecidableEq

/-- The external collaborators of the executor and the rollback engine:
`exec` models `execSync` on an `appwrite` CLI command line, `ensureIndex`
the HTTP client call. -/
structure AwClient where
  exec : String → Except AwError Unit
  ensureIndex : String → String → IndexPayload → Except AwError Unit

/-- The `appwrite databases create-collection ...` command line (line
continuations collapsed to single spaces). -/
def createCollectionCommand (dbId : String) (c : CollectionCreate) : String :=
  "appwrite databases create-collection --database-id " ++ dbId ++
    " --collection-id \"" ++ c.id ++ "\" --name \"" ++ c.name ++ "\" --enabled true"

/-- `AWMImproved.buildAttributeCommand(dbId, attr)` (src/unnamed/part_000
lines 1938-1965): `none` models the `Unsupported attribute type` throw of
the default case. -/
def buildAttributeCommand (dbId : String) (attr : AttributeCreate) : Option String :=
  let common := "--database-id " ++ dbId ++ " --collection-id \"" ++
    attr.collection_id ++ "\" --key \"" ++ attr.key ++ "\""
  let req := if attr.required then "--required true" else "--required false"
  let arr := if attr.array then "--array true" else "--array false"
  let t := lowerStr attr.type
  -- `attr.size || 255`: an absent or zero size falls back to 255
  let size : Int := match attr.size with
    | some n => if n = 0 then 255 else n
    | none => 255
  if t == "string" then
    some ("appwrite databases create-string-attribute " ++ common ++
      " --size " ++ toString size ++ " " ++ req ++ " " ++ arr)
  else if t == "integer" || t == "int" then
    some ("appwrite databases create-integer-attribute " ++ common ++ " " ++ req ++ " " ++ arr)
  else if t == "float" || t == "double" then
    some ("appwrite databases create-float-attribute " ++ common ++ " " ++ req ++ " " ++ arr)
  else if t == "boolean" || t == "bool" then
    some ("appwrite databases create-boolean-attribute " ++ common ++ " " ++ req ++ " " ++ arr)
  else if t == "datetime" then
    some ("appwrite databases create-datetime-attribute " ++ common ++ " " ++ req ++ " " ++ arr)
  else if t == "email" then
    some ("appwrite databases create-email-attribute " ++ common ++ " " ++ req ++ " " ++ arr)
  else if t == "url" then
    some ("appwrite databases create-url-attribute " ++ common ++ " " ++ req ++ " " ++ arr)
  else
    none

inductive EntityKind where
  | collection
  | attribute
  | index
  deriving Repr, DecidableEq

/-- One console line of the apply loop: `created = true` for the ✓ branch,
`false` for the ○ already-exists branch. -/
structure ApplyEvent where
  kind : EntityKind
  created : Bool
  label : String
  deriving Repr, DecidableEq

/-- The collection loop: an error whose stderr contains `already exists` is
logged and skipped, any other error is rethrown (aborting the run). -/
def applyCollections (client : AwClient) (dbId : String) :
    List CollectionCreate → Except AwError (List ApplyEvent)
  | [] => .ok []
  | c :: rest =>
      match client.exec (createCollectionCommand dbId c) with
      | .ok _ =>
          (applyCollections client dbId rest).map
            (fun evs => ⟨.collection, true, c.name⟩ :: evs)
      | .error e =>
          if stderrHasAlreadyExists e then
            (applyCollections client dbId rest).map
              (fun evs => ⟨.collection, false, c.name⟩ :: evs)
          else
            .error e

/-- The attribute loop; `buildAttributeCommand` throwing for an unsupported
type is an error with neither `status` nor `stderr`, hence fatal. -/
def applyAttributes (client : AwClient) (dbId : String) :
    List AttributeCreate → Except AwError (List ApplyEvent)
  | [] => .ok []
  | a :: rest =>
      match buildAttributeCommand dbId a with
      | none => .error ⟨none, none, "Unsupported attribute type: " ++ a.type⟩
      | some cmd =>
          match client.exec cmd with
          | .ok _ =>
              (applyAttributes client dbId rest).map
                (fun evs => ⟨.attribute, true, a.collection_id ++ "." ++ a.key⟩ :: evs)
          | .error e =>
              if stderrHasAlreadyExists e then
                (applyAttributes client dbId rest).map
                  (fun evs => ⟨.attribute, false, a.collection_id ++ "." ++ a.key⟩ :: evs)
              else
                .error e

/-- The index loop: the key is re-sanitized, orders are filtered through
`.filter(Boolean)`, and only an HTTP 409 is tolerated. -/
def applyIndexes (md5hex : String → String) (client : AwClient) (dbId : String) :
    List IndexCreate → Except AwError (List ApplyEvent)
  | [] => .ok []
  | i :: rest =>
      let indexKey := sanitizeIndexKey md5hex (some i.key)
      let payload : IndexPayload :=
        ⟨indexKey, if i.type = "" then "key" else i.type, i.attributes,
          (i.orders.filterMap id).filter (fun o => o ≠ "")⟩
      match client.ensureIndex dbId i.collection_id payload with
      | .ok _ =>
          (applyIndexes md5hex client dbId rest).map
            (fun evs => ⟨.index, true, i.collection_id ++ "." ++ indexKey⟩ :: evs)
      | .error e =>
          if e.status == some 409 then
            (applyIndexes md5hex client dbId rest).map
              (fun evs => ⟨.index, false, i.collection_id ++ "." ++ i.key⟩ :: evs)
          else
            .error e

/-- `AWMImproved.applyChanges(changes)`.  The instance field `this.force`
is in scope but never consulted here, hence the unused parameter. -/
def applyChanges (md5hex : String → String) (force : Bool) (client : AwClient)
    (dbId : String) (changes : Changes) : Except AwError (List ApplyEvent) :=
  match applyCollections client dbId changes.collections with
  | .error e => .error e
  | .ok evs1 =>
      match applyAttributes client dbId changes.attributes with
      | .error e => .error e
      | .ok evs2 =>
          match applyIndexes md5hex client dbId changes.indexes with
          | .error e => .error e
          | .ok evs3 => .ok (evs1 ++ evs2 ++ evs3)

/-! ### Rollback engine (`rollback` body, src/unnamed/part_000 lines
1605-1672) and the history store (`AppwriteStateStore`, src/unnamed/part_001)

The state store's history documents are modelled as the list of history
records ordered newest first (the `orderDesc("$createdAt")` listing order);
non-history record types are irrelevant here.  `updateHistoryStatus`
(part_001 lines 535-541) updates the document in place — it never deletes. -/

structure CompactColl where
  id : String
  name : String
  deriving Repr, DecidableEq

structure CompactEntry where
  collection_id : String
  key : String
  deriving Repr, DecidableEq

/-- `compactChanges` output recorded in a history payload. -/
structure CompactChanges where
  collections : List CompactColl
  attributes : List CompactEntry
  indexes : List CompactEntry
  deriving Repr, DecidableEq

structure HistoryPayload where
  ptype : String
  changes : CompactChanges
  deriving Repr, DecidableEq

structure HistEntry where
  recordId : String
  status : String
  /-- `none` models a null / unparsable payload (`history.payload || {}`) -/
  payload : Option HistoryPayload
  deriving Repr, DecidableEq

/-- `latestHistory(status)`: first history document (newest first) whose
status matches (`!status || item.status === status`). -/
def latestHistory (store : List HistEntry) (status : String) : Option HistEntry :=
  store.find? (fun d => status == "" || d.status == status)

/-- `updateHistoryStatus(recordId, status)`: flip the status of the
matching document, keep everything else. -/
def updateHistoryStatus (store : List HistEntry) (recordId status : String) :
    List HistEntry :=
  store.map (fun d => if d.recordId == recordId then { d with status := status } else d)

def deleteIndexCommand (dbId cid key : String) : String :=
  "appwrite databases delete-index --database-id " ++ dbId ++
    " --collection-id \"" ++ cid ++ "\" --key \"" ++ key ++ "\""

def deleteAttributeCommand (dbId cid key : String) : String :=
  "appwrite databases delete-attribute --database-id " ++ dbId ++
    " --collection-id \"" ++ cid ++ "\" --key \"" ++ key ++ "\""

def deleteCollectionCommand (dbId cid : String) : String :=
  "appwrite databases delete-collection --database-id " ++ dbId ++
    " --collection-id \"" ++ cid ++ "\""

/-- One console line of the rollback loops: `deleted = true` for the `-`
branch, `false` for the ○ already-removed branch (the `catch` tolerates
every deletion failure). -/
structure DeleteEvent where
  kind : EntityKind
  deleted : Bool
  label : String
  deriving Repr, DecidableEq

inductive RollbackResult where
  /-- no applied history entry: operator message, nothing done -/
  | noHistory
  /-- latest applied entry is not an apply run: operator message, nothing done -/
  | notApply
  | rolledBack (events : List DeleteEvent)
  deriving Repr, DecidableEq

/-- The body of `rollback()` inside its lock (dry-run disabled): look up
the newest `applied` history record; skip unless its payload type is
`apply`; delete indexes, then attributes, then collections, tolerating
every deletion failure; finally flip the record's status. -/
def rollbackOp (client : AwClient) (dbId : String) (store : List HistEntry) :
    RollbackResult × List HistEntry :=
  match latestHistory store "applied" with
  | none => (.noHistory, store)
  | some h =>
      match h.payload with
      | none => (.notApply, store)
      | some p =>
          if p.ptype != "apply" then (.notApply, store)
          else
            let evIdx := p.changes.indexes.map (fun i =>
              ⟨.index, isOkE (client.exec (deleteIndexCommand dbId i.collection_id i.key)),
                i.collection_id ++ "." ++ i.key⟩)
            let evAttr := p.changes.attributes.map (fun a =>
              ⟨.attribute,
                isOkE (client.exec (deleteAttributeCommand dbId a.collection_id a.key)),
                a.collection_id ++ "." ++ a.key⟩)
            let evColl := p.changes.collections.map (fun c =>
              (⟨.collection, isOkE (client.exec (deleteCollectionCommand dbId c.id)),
                c.id⟩ : DeleteEvent))
            (.rolledBack (evIdx ++ evAttr ++ evColl),
              updateHistoryStatus store h.recordId "rolled_back")

/-! ## Theorems -/

/-- C1 counterexample: at the instant `current time = expiresAt` (here both
100) a different owner without `force` is refused with a contention error,
although the claim declares the lock expired (`current time ≥ expiresAt`)
and the acquisition successful.  The code's expiry test is strict
(`new Date(existing.expires_at) < new Date()`). -/
theorem acquire_expiry_boundary_cex :
    ((100 : Int) ≥ 100 ∧ ("alice" : String) ≠ "bob") ∧
      acquire (some ⟨"job", "alice", "locked", 0, some 100⟩) 100 "job" "bob" 600 false
        = .error (contentionMsg "job" ⟨"job", "alice", "locked", 0, some 100⟩) := by
  exact ⟨⟨le_refl _, by decide⟩, rfl⟩

/-- C1 (amended): `acquire(lockId, owner, ttl, force)` creates a `locked`
record and succeeds when no record exists; when a record exists it is
overwritten (and the call succeeds) iff the record is expired — meaning its
`expiresAt` is set and **strictly earlier** than the current time — or its
owner equals the caller's owner, or `force` is set; otherwise the call
fails with a contention error naming the current holder. -/
theorem acquire_spec (st : Option LockRecord) (now : Int) (lockId owner : String)
    (ttl : Nat) (force : Bool) :
    (st = none →
       acquire st now lockId owner ttl force
         = .ok (some ⟨lockId, owner, "locked", now, mkExpiresAt now ttl⟩)) ∧
    (∀ ex, st = some ex →
       (lockExpired ex now = true ∨ ex.owner = owner ∨ force = true →
          acquire st now lockId owner ttl force
            = .ok (some { ex with owner := owner, status := "locked",
                                  createdAt := now,
                                  expiresAt := mkExpiresAt now ttl })) ∧
       (lockExpired ex now = false → ex.owner ≠ owner → force = false →
          acquire st now lockId owner ttl force = .error (contentionMsg lockId ex) ∧
          ∃ pre post, contentionMsg lockId ex
            = pre ++ (if ex.owner = "" then "unknown" else ex.owner) ++ post)) := by
  constructor
  · rintro rfl
    rfl
  · rintro ex rfl
    constructor
    · intro h
      have hcond : (!force && !lockExpired ex now && !(ex.owner == owner)) = false := by
        rcases h with h | h | h
        · simp [h]
        · simp [h]
        · simp [h]
      simp [acquire, hcond]
    · intro h1 h2 h3
      have hcond : (!force && !lockExpired ex now && !(ex.owner == owner)) = true := by
        simp [h1, h3]
        exact h2
      refine ⟨by simp [acquire, hcond], ?_⟩
      exact ⟨"Lock " ++ lockId ++ " is held by ", " since " ++ toString ex.createdAt,
        by simp [contentionMsg, String.append_assoc]⟩

/-- Witness for `acquire_spec` at concrete inputs: acquisition on a free
lock succeeds, re-entrant acquisition succeeds, contention fails. -/
theorem acquire_spec_witness :
    acquire none 5 "job" "alice" 600 false
      = .ok (some ⟨"job", "alice", "locked", 5, some 600005⟩) ∧
    acquire (some ⟨"job", "alice", "locked", 0, some 600000⟩) 5 "job" "alice" 600 false
      = .ok (some ⟨"job", "alice", "locked", 5, some 600005⟩) ∧
    acquire (some ⟨"job", "alice", "locked", 0, some 600000⟩) 5 "job" "bob" 600 false
      = .error (contentionMsg "job" ⟨"job", "alice", "locked", 0, some 600000⟩) := by
  refine ⟨?_, ?_, ?_⟩
  · have h := (acquire_spec none 5 "job" "alice" 600 false).1 rfl
    simpa [mkExpiresAt] using h
  · have h := ((acquire_spec (some ⟨"job", "alice", "locked", 0, some 600000⟩)
      5 "job" "alice" 600 false).2 _ rfl).1 (Or.inr (Or.inl rfl))
    simpa [mkExpiresAt] using h
  · exact (((acquire_spec (some ⟨"job", "alice", "locked", 0, some 600000⟩)
      5 "job" "bob" 600 false).2 _ rfl).2 (by decide) (by decide) rfl).1

/-- C2 counterexample: the lock record's owner (`"alice"`) is set and
differs from the caller's owner (the empty string), yet `release` deletes
the record and succeeds, because the owner check only fires when the
caller's owner is truthy (`if (owner && existing.owner && ...)`). -/
theorem release_empty_caller_cex :
    ("alice" : String) ≠ "" ∧ ("" : String) ≠ "alice" ∧
      release (some ⟨"job", "alice", "locked", 0, none⟩) "job" "" = .ok none := by
  exact ⟨by decide, by decide, rfl⟩

/-- C2 (amended): `release(lockId, owner)` is a no-op success when no
record exists; it fails iff the caller's owner is non-empty, the record's
owner is non-empty and the two differ; otherwise it deletes the record.
An `acquire(id, ownerA)` followed by `release(id, ownerA)` leaves no lock
record, and a subsequent `acquire(id, ownerB)` succeeds. -/
theorem release_spec (st : Option LockRecord) (lockId owner : String) :
    (st = none → release st lockId owner = .ok none) ∧
    (∀ ex, st = some ex → owner ≠ "" → ex.owner ≠ "" → ex.owner ≠ owner →
       release st lockId owner = .error (releaseDeniedMsg lockId ex.owner)) ∧
    (∀ ex, st = some ex → (owner = "" ∨ ex.owner = "" ∨ ex.owner = owner) →
       release st lockId owner = .ok none) ∧
    (∀ now ttl force st1, acquire none now lockId owner ttl force = .ok st1 →
       release st1 lockId owner = .ok none ∧
       ∀ now2 ttl2 force2 (ownerB : String),
         acquire none now2 lockId ownerB ttl2 force2
           = .ok (some ⟨lockId, ownerB, "locked", now2, mkExpiresAt now2 ttl2⟩)) := by
  refine ⟨?_, ?_, ?_, ?_⟩
  · rintro rfl; rfl
  · rintro ex rfl h1 h2 h3
    have hcond : (owner != "" && ex.owner != "" && ex.owner != owner) = true := by
      simp [h1, h2]
      exact h3
    simp [release, hcond]
  · rintro ex rfl h
    have hcond : (owner != "" && ex.owner != "" && ex.owner != owner) = false := by
      rcases h with h | h | h
      · simp [h]
      · simp [h]
      · simp [h]
    simp [release, hcond]
  · intro now ttl force st1 hacq
    have hst1 : st1 = some ⟨lockId, owner, "locked", now, mkExpiresAt now ttl⟩ := by
      simpa [acquire] using hacq.symm
    subst hst1
    refine ⟨by simp [release], fun now2 ttl2 force2 ownerB => rfl⟩

/-- Witness for `release_spec`: the acquire/release/re-acquire round trip
at concrete inputs. -/
theorem release_spec_witness :
    release none "job" "alice" = .ok none ∧
    release (some ⟨"job", "bob", "locked", 0, none⟩) "job" "alice"
      = .error (releaseDeniedMsg "job" "bob") ∧
    release (some ⟨"job", "alice", "locked", 0, none⟩) "job" "alice" = .ok none ∧
    acquire none 9 "job" "carol" 600 false
      = .ok (some ⟨"job", "carol", "locked", 9, some 600009⟩) := by
  refine ⟨?_, ?_, ?_, ?_⟩
  · exact (release_spec none "job" "alice").1 rfl
  · exact (release_spec (some ⟨"job", "bob", "locked", 0, none⟩) "job" "alice").2.1
      _ rfl (by decide) (by decide) (by decide)
  · exact (release_spec (some ⟨"job", "alice", "locked", 0, none⟩) "job" "alice").2.2.1
      _ rfl (Or.inr (Or.inr rfl))
  · have h := ((release_spec (some ⟨"job", "alice", "locked", 3, none⟩) "job" "alice").2.2.2
      3 600 false (some ⟨"job", "alice", "locked", 3, mkExpiresAt 3 600⟩) rfl).2
      9 600 false "carol"
    simpa [mkExpiresAt] using h

/-- A successful `acquire` always stores the caller as owner. -/
theorem acquire_ok_owner {st st1 : Option LockRecord} {now : Int}
    {lockId owner : String} {ttl : Nat} {force : Bool}
    (h : acquire st now lockId owner ttl force = .ok st1) :
    ∃ r, st1 = some r ∧ r.owner = owner := by
  match st with
  | none =>
      refine ⟨⟨lockId, owner, "locked", now, mkExpiresAt now ttl⟩, ?_, rfl⟩
      simpa [acquire] using h.symm
  | some ex =>
      by_cases hc : (!force && !lockExpired ex now && !(ex.owner == owner)) = true
      · simp [acquire, hc] at h
      · simp [acquire, hc] at h
        exact ⟨_, h.symm, rfl⟩

/-- After a successful `acquire`, `release` by the same owner deletes the
record; hence `withLock` with valid credentials propagates the body's
outcome and leaves no lock record, while a failed acquisition returns the
contention error without consulting the body. -/
theorem withLock_spec {α : Type} (st st1 : Option LockRecord) (now : Int)
    (lockId owner : String) (force : Bool) (body : Except String α) :
    (acquire st now lockId owner 600 force = .ok st1 →
       withLock true st now lockId owner force body = (body, none)) ∧
    (∀ e, acquire st now lockId owner 600 force = .error e →
       withLock true st now lockId owner force body = (.error e, st)) := by
  constructor
  · intro hacq
    obtain ⟨r, hr, hro⟩ := acquire_ok_owner hacq
    have hrel : release st1 lockId owner = .ok none := by
      subst hr
      simp [release, hro]
    simp [withLock, hacq, hrel]
  · intro e hacq
    simp [withLock, hacq]

/-- C3: each mutating top-level operation (`apply`, `relationships`,
`rollback`, `reset`) runs under a lock scoped to that operation kind.  When
the acquisition succeeds, the final lock state holds no record — the lock is
released on every exit path, including a throwing body, whose error is
propagated unchanged.  When the acquisition fails, the result is the
contention error and is independent of the body: no work happens before the
lock is held. -/
theorem mutating_ops_lock_discipline {α : Type} (st st1 : Option LockRecord)
    (now : Int) (owner : String) (force : Bool) (body : Except String α) :
    ((acquire st now "schema-apply" owner 600 force = .ok st1 →
        applyOp true st now owner force body = (body, none)) ∧
     (∀ e, acquire st now "schema-apply" owner 600 force = .error e →
        applyOp true st now owner force body = (.error e, st))) ∧
    ((acquire st now "schema-relationships" owner 600 force = .ok st1 →
        relationshipsOp true st now owner force body = (body, none)) ∧
     (∀ e, acquire st now "schema-relationships" owner 600 force = .error e →
        relationshipsOp true st now owner force body = (.error e, st))) ∧
    ((acquire st now "schema-rollback" owner 600 force = .ok st1 →
        rollbackLockOp true st now owner force body = (body, none)) ∧
     (∀ e, acquire st now "schema-rollback" owner 600 force = .error e →
        rollbackLockOp true st now owner force body = (.error e, st))) ∧
    ((acquire st now "schema-reset" owner 600 force = .ok st1 →
        resetOp true st now owner force body = (body, none)) ∧
     (∀ e, acquire st now "schema-reset" owner 600 force = .error e →
        resetOp true st now owner force body = (.error e, st))) := by
  exact ⟨withLock_spec st st1 now "schema-apply" owner force body,
    withLock_spec st st1 now "schema-relationships" owner force body,
    withLock_spec st st1 now "schema-rollback" owner force body,
    withLock_spec st st1 now "schema-reset" owner force body⟩

/-- Witness for `mutating_ops_lock_discipline`: starting from a free lock,
`apply` with a succeeding body and `rollback` with a throwing body both end
with no lock record, and the body outcome is propagated. -/
theorem mutating_ops_lock_discipline_witness :
    applyOp true none 7 "ci-runner" false (.ok (42 : Nat)) = (.ok 42, none) ∧
    rollbackLockOp true none 7 "ci-runner" false
      (.error "boom" : Except String Nat) = (.error "boom", none) := by
  constructor
  · exact (mutating_ops_lock_discipline none
      (some ⟨"schema-apply", "ci-runner", "locked", 7, mkExpiresAt 7 600⟩)
      7 "ci-runner" false (.ok 42)).1.1 rfl
  · exact (mutating_ops_lock_discipline none
      (some ⟨"schema-rollback", "ci-runner", "locked", 7, mkExpiresAt 7 600⟩)
      7 "ci-runner" false (.error "boom")).2.2.1.1 rfl

/-- The element a `dropWhile` result starts with fails the predicate. -/
theorem dropWhile_head_false {α : Type} (p : α → Bool) :
    ∀ (l : List α) (c : α) (t : List α), l.dropWhile p = c :: t → p c = false := by
  intro l
  induction l with
  | nil => intro c t h; simp [List.dropWhile] at h
  | cons a l ih =>
      intro c t h
      by_cases ha : p a = true
      · rw [List.dropWhile_cons_of_pos ha] at h
        exact ih c t h
      · rw [List.dropWhile_cons_of_neg ha] at h
        cases h
        simpa using ha

/-- Unfolding equation for `cleanKey`. -/
theorem cleanKey_def (key : Option String) :
    cleanKey key
      = (if (((keyString key).toList.dropWhile (fun c => !isAlnumAZ09 c)).map
            (fun c => if isKeyAllowed c then c else '_')) = [] then "idx_hash"
         else ⟨((keyString key).toList.dropWhile (fun c => !isAlnumAZ09 c)).map
            (fun c => if isKeyAllowed c then c else '_')⟩) := rfl

/-- Unfolding equation for `sanitizeIndexKey`. -/
theorem sanitizeIndexKey_def (md5hex : String → String) (key : Option String) :
    sanitizeIndexKey md5hex key
      = (if (cleanKey key).length ≤ 36 then cleanKey key
         else "idx_" ++ strTake (md5hex (cleanKey key)) 28) := rfl

theorem mkString_length (l : List Char) : (⟨l⟩ : String).length = l.length := rfl

theorem strTake_length_le (s : String) (n : Nat) : (strTake s n).length ≤ n := by
  show (s.toList.take n).length ≤ n
  rw [List.length_take]
  exact min_le_left _ _

theorem idx_append_length (s : String) : ("idx_" ++ s).length = 4 + s.length := by
  rw [String.length_append]
  rfl

/-- When the sanitized characters are nonempty, `cleanKey` is exactly the
strip-and-replace result. -/
theorem cleanKey_of_ne_nil (key : Option String)
    (h : (((keyString key).toList.dropWhile (fun c => !isAlnumAZ09 c)).map
      (fun c => if isKeyAllowed c then c else '_')) ≠ []) :
    cleanKey key
      = ⟨((keyString key).toList.dropWhile (fun c => !isAlnumAZ09 c)).map
          (fun c => if isKeyAllowed c then c else '_')⟩ := by
  rw [cleanKey_def, if_neg h]

/-- `cleanKey` never yields the empty string. -/
theorem cleanKey_length_pos (key : Option String) : 0 < (cleanKey key).length := by
  by_cases h : (((keyString key).toList.dropWhile (fun c => !isAlnumAZ09 c)).map
      (fun c => if isKeyAllowed c then c else '_')) = []
  · rw [cleanKey_def, if_pos h]
    decide
  · rw [cleanKey_of_ne_nil key h, mkString_length]
    exact List.length_pos.mpr h

/-- C8: `sanitizeIndexKey` strips a single leading run of non-alphanumeric
characters, replaces every remaining character outside `[A-Za-z0-9._-]`
with `_`, and when the result exceeds 36 characters replaces it with
`idx_` followed by the first 28 characters of the md5 hex digest of the
pre-truncation key.  The function is deterministic and its result length
is at most 36 for all inputs. -/
theorem sanitizeIndexKey_spec (md5hex : String → String) (key : Option String) :
    (∀ replaced : List Char,
       replaced = ((keyString key).toList.dropWhile (fun c => !isAlnumAZ09 c)).map
         (fun c => if isKeyAllowed c then c else '_') →
       replaced ≠ [] →
       ((replaced.length ≤ 36 → sanitizeIndexKey md5hex key = ⟨replaced⟩) ∧
        (36 < replaced.length →
           sanitizeIndexKey md5hex key = "idx_" ++ strTake (md5hex ⟨replaced⟩) 28 ∧
           (strTake (md5hex ⟨replaced⟩) 28).length ≤ 28))) ∧
    sanitizeIndexKey md5hex key = sanitizeIndexKey md5hex key ∧
    (sanitizeIndexKey md5hex key).length ≤ 36 := by
  refine ⟨?_, rfl, ?_⟩
  · rintro replaced hrepl hne
    have hck : cleanKey key = ⟨replaced⟩ := by
      rw [hrepl]
      exact cleanKey_of_ne_nil key (hrepl ▸ hne)
    have hlen : (cleanKey key).length = replaced.length := by
      rw [hck, mkString_length]
    constructor
    · intro h36
      have h : (cleanKey key).length ≤ 36 := by rw [hlen]; exact h36
      rw [sanitizeIndexKey_def, if_pos h, hck]
    · intro h36
      have h : ¬ (cleanKey key).length ≤ 36 := by rw [hlen]; omega
      refine ⟨?_, strTake_length_le _ _⟩
      rw [sanitizeIndexKey_def, if_neg h, hck]
  · by_cases h : (cleanKey key).length ≤ 36
    · rw [sanitizeIndexKey_def, if_pos h]
      exact h
    · rw [sanitizeIndexKey_def, if_neg h, idx_append_length]
      have := strTake_length_le (md5hex (cleanKey key)) 28
      omega

/-- Witness for `sanitizeIndexKey_spec`: a short key is strip-and-replaced
in place; a 40-character key is replaced by `idx_` plus the first 28 digest
characters (md5 stubbed by a fixed 32-hex-character digest). -/
theorem sanitizeIndexKey_spec_witness :
    sanitizeIndexKey (fun _ => "d41d8cd98f00b204e9800998ecf8427e") (some "a b!") = "a_b_" ∧
    sanitizeIndexKey (fun _ => "d41d8cd98f00b204e9800998ecf8427e")
        (some ⟨List.replicate 40 'a'⟩) = "idx_d41d8cd98f00b204e9800998ecf8" := by
  constructor
  · have h := ((sanitizeIndexKey_spec (fun _ => "d41d8cd98f00b204e9800998ecf8427e")
      (some "a b!")).1 ['a', '_', 'b', '_'] (by decide) (by decide)).1 (by decide)
    rw [h]
  · have h := (((sanitizeIndexKey_spec (fun _ => "d41d8cd98f00b204e9800998ecf8427e")
      (some ⟨List.replicate 40 'a'⟩)).1 (List.replicate 40 'a')
        (by decide) (by decide)).2 (by decide)).1
    rw [h]
    decide

/-- C10: a key with no `[A-Za-z0-9._-]` character left after stripping the
leading non-alphanumeric run (the empty string, an absent key, or pure
punctuation) sanitizes to the fixed fallback `idx_hash`; consequently the
sanitized key is never empty. -/
theorem sanitizeIndexKey_fallback (md5hex : String → String) (key : Option String) :
    ((((keyString key).toList.dropWhile (fun c => !isAlnumAZ09 c)).all
        (fun c => !isKeyAllowed c)) = true →
       sanitizeIndexKey md5hex key = "idx_hash") ∧
    sanitizeIndexKey md5hex key ≠ "" := by
  constructor
  · intro hall
    have hstripped : ((keyString key).toList.dropWhile (fun c => !isAlnumAZ09 c)) = [] := by
      cases hd : ((keyString key).toList.dropWhile (fun c => !isAlnumAZ09 c)) with
      | nil => rfl
      | cons c t =>
          exfalso
          have hc : (!isAlnumAZ09 c) = false := dropWhile_head_false _ _ c t hd
          have hc2 : isAlnumAZ09 c = true := by simpa using hc
          have hmem : c ∈ ((keyString key).toList.dropWhile (fun c => !isAlnumAZ09 c)) := by
            rw [hd]; exact List.mem_cons_self c t
          have hcb := List.all_eq_true.mp hall c hmem
          have hallowed : isKeyAllowed c = true := by
            simp [isKeyAllowed, hc2]
          rw [hallowed] at hcb
          simp at hcb
    have hrepl : (((keyString key).toList.dropWhile (fun c => !isAlnumAZ09 c)).map
        (fun c => if isKeyAllowed c then c else '_')) = [] := by
      rw [hstripped]
      rfl
    have hck : cleanKey key = "idx_hash" := by
      rw [cleanKey_def, if_pos hrepl]
    have h8 : (cleanKey key).length ≤ 36 := by rw [hck]; decide
    rw [sanitizeIndexKey_def, if_pos h8, hck]
  · intro hcontra
    by_cases h : (cleanKey key).length ≤ 36
    · rw [sanitizeIndexKey_def, if_pos h] at hcontra
      have h0 := cleanKey_length_pos key
      rw [hcontra] at h0
      exact absurd h0 (by decide)
    · rw [sanitizeIndexKey_def, if_neg h] at hcontra
      have hlen := congrArg String.length hcontra
      rw [idx_append_length] at hlen
      have h0 : ("" : String).length = 0 := rfl
      rw [h0] at hlen
      omega

/-- Witness for `sanitizeIndexKey_fallback`: a pure-punctuation key and an
absent key both sanitize to `idx_hash`. -/
theorem sanitizeIndexKey_fallback_witness :
    sanitizeIndexKey (fun _ => "d41d8cd98f00b204e9800998ecf8427e") (some "!!.__--") = "idx_hash" ∧
    sanitizeIndexKey (fun _ => "d41d8cd98f00b204e9800998ecf8427e") none = "idx_hash" := by
  constructor
  · exact (sanitizeIndexKey_fallback (fun _ => "d41d8cd98f00b204e9800998ecf8427e")
      (some "!!.__--")).1 (by decide)
  · exact (sanitizeIndexKey_fallback (fun _ => "d41d8cd98f00b204e9800998ecf8427e")
      none).1 (by decide)
/-- The step function of the token loop preserves the fields/orders
parallel-length invariant. -/
theorem parseTokens_foldl_len :
    ∀ (ts : List String) (acc : List String × List (Option String)),
      acc.2.length = acc.1.length →
      (List.foldl indexFieldStep acc ts).2.length
        = (List.foldl indexFieldStep acc ts).1.length := by
  intro ts
  induction ts with
  | nil => intro acc h; exact h
  | cons t ts ih =>
      intro acc h
      rw [List.foldl_cons]
      apply ih
      by_cases hc : (isOrderTok t && !acc.1.isEmpty) = true
      · simp [indexFieldStep, hc, List.length_set, h]
      · simp [indexFieldStep, hc, h]

/-- C9 counterexample: in `@@index([asc, name])` the leading `asc` token is
pushed as a field name (the order-token branch requires a previously
collected field: `(lower === 'asc' || lower === 'desc') && fields.length`),
contradicting the claim that such tokens are never added to the fields. -/
theorem parseIndexFields_asc_leading_cex :
    isOrderTok "asc" = true ∧ (parseIndexFields "asc, name").1 = ["asc", "name"] := by
  decide

/-- C9 (amended): a token other than `asc`/`desc` is appended to the fields
with a `null` order entry; an `asc`/`desc` token (case-insensitive) with at
least one field already collected is not added to the fields and sets the
order of the immediately preceding field (uppercased to `ASC`/`DESC`); an
`asc`/`desc` token with no preceding field is appended as a field with a
`null` order; fields and orders always stay parallel. -/
theorem parseIndexFields_amended :
    (∀ s, parseIndexFields s = parseTokens (tokenizeFields s)) ∧
    (∀ ts t, isOrderTok t = false →
       parseTokens (ts ++ [t])
         = ((parseTokens ts).1 ++ [t], (parseTokens ts).2 ++ [none])) ∧
    (∀ ts t, isOrderTok t = true → (parseTokens ts).1 ≠ [] →
       parseTokens (ts ++ [t])
         = ((parseTokens ts).1,
            (parseTokens ts).2.set ((parseTokens ts).1.length - 1)
              (some (orderVal t)))) ∧
    (∀ ts t, isOrderTok t = true → (parseTokens ts).1 = [] →
       parseTokens (ts ++ [t])
         = ((parseTokens ts).1 ++ [t], (parseTokens ts).2 ++ [none])) ∧
    (∀ ts, (parseTokens ts).2.length = (parseTokens ts).1.length) := by
  have hstep : ∀ ts t, parseTokens (ts ++ [t]) = indexFieldStep (parseTokens ts) t := by
    intro ts t
    unfold parseTokens
    rw [List.foldl_append]
    rfl
  refine ⟨fun s => rfl, ?_, ?_, ?_, ?_⟩
  · intro ts t ht
    rw [hstep]
    simp [indexFieldStep, ht]
  · intro ts t ht hne
    rw [hstep]
    have hcond : (isOrderTok t && !(parseTokens ts).1.isEmpty) = true := by
      simp [ht]
      exact hne
    simp [indexFieldStep, hcond]
  · intro ts t ht hnil
    rw [hstep]
    have hcond : (isOrderTok t && !(parseTokens ts).1.isEmpty) = false := by
      simp [ht, hnil]
    simp [indexFieldStep, hcond]
  · intro ts
    exact parseTokens_foldl_len ts ([], []) rfl

/-- Witness for `parseIndexFields_amended`: appending `desc` after a field
sets that field's order; a plain token is appended with a `null` order. -/
theorem parseIndexFields_amended_witness :
    parseTokens (["email"] ++ ["desc"]) = (["email"], [some "DESC"]) ∧
    parseTokens ([] ++ ["name"]) = (["name"], [none]) ∧
    parseIndexFields "email, desc" = parseTokens (tokenizeFields "email, desc") := by
  refine ⟨?_, ?_, parseIndexFields_amended.1 "email, desc"⟩
  · have h := parseIndexFields_amended.2.2.1 ["email"] "desc" (by decide) (by decide)
    rw [h]
    decide
  · have h := parseIndexFields_amended.2.1 [] "name" (by decide)
    rw [h]
    decide

/-! ### Change-calculator lemmas -/

/-- `collCreateOf` yields entries whose id is the collection's kebab id. -/
theorem collCreateOf_some_id {remote : RemoteState} {nc : String × SchemaCollection}
    {c : CollectionCreate} (h : collCreateOf remote nc = some c) :
    c.id = toKebabCase nc.1 := by
  unfold collCreateOf at h
  split at h
  · cases h
    rfl
  · cases h

/-- `collCreateOf` yields an entry iff the collection is absent remotely,
and then exactly the `mkCollectionCreate` record. -/
theorem collCreateOf_of_none {remote : RemoteState} {nc : String × SchemaCollection}
    (h : remoteGet remote (toKebabCase nc.1) = none) :
    collCreateOf remote nc = some (mkCollectionCreate nc.1 nc.2) := by
  unfold collCreateOf
  rw [h]

/-- Every entry of an attribute block carries that collection's kebab id. -/
theorem attrCreatesOf_collection_id {remote : RemoteState}
    {nc : String × SchemaCollection} {e : AttributeCreate}
    (h : e ∈ attrCreatesOf remote nc) : e.collection_id = toKebabCase nc.1 := by
  unfold attrCreatesOf at h
  split at h
  · cases h
  · obtain ⟨na, _, hsome⟩ := List.mem_filterMap.mp h
    split at hsome
    · cases hsome
    · split at hsome
      · cases hsome
      · cases hsome
        rfl

/-- Every entry of an index block carries that collection's kebab id. -/
theorem indexCreatesOf_collection_id {md5hex : String → String} {remote : RemoteState}
    {nc : String × SchemaCollection} {e : IndexCreate}
    (h : e ∈ indexCreatesOf md5hex remote nc) : e.collection_id = toKebabCase nc.1 := by
  unfold indexCreatesOf at h
  split at h
  · cases h
  · obtain ⟨i, _, hsome⟩ := List.mem_filterMap.mp h
    split at hsome
    · cases hsome
    · cases hsome
      rfl

/-- An absent collection contributes no attribute-create entries. -/
theorem attrCreatesOf_of_none {remote : RemoteState} {nc : String × SchemaCollection}
    (h : remoteGet remote (toKebabCase nc.1) = none) :
    attrCreatesOf remote nc = [] := by
  unfold attrCreatesOf
  rw [h]

/-- An absent collection contributes no index-create entries. -/
theorem indexCreatesOf_of_none {md5hex : String → String} {remote : RemoteState}
    {nc : String × SchemaCollection}
    (h : remoteGet remote (toKebabCase nc.1) = none) :
    indexCreatesOf md5hex remote nc = [] := by
  unfold indexCreatesOf
  rw [h]

/-- Filtering the collection creates of a list none of whose members has
kebab id `K` yields nothing. -/
theorem coll_filter_eq_nil (remote : RemoteState) :
    ∀ (l : List (String × SchemaCollection)) (K : String),
      (∀ x ∈ l, toKebabCase x.1 ≠ K) →
      (l.filterMap (collCreateOf remote)).filter (fun c => c.id == K) = [] := by
  intro l
  induction l with
  | nil => intro K _; rfl
  | cons hd l ih =>
      intro K h
      rw [List.filterMap_cons]
      have hrest := ih K (fun x hx => h x (List.mem_cons_of_mem _ hx))
      cases hc : collCreateOf remote hd with
      | none => exact hrest
      | some c =>
          have hid : c.id = toKebabCase hd.1 := collCreateOf_some_id hc
          have hne : (c.id == K) = false := by
            rw [hid]
            exact beq_eq_false_iff_ne.mpr (h hd (List.mem_cons_self hd l))
          rw [List.filter_cons, hne]
          simpa using hrest

/-- Filtering attribute creates on a kebab id whose only possible source
collections contribute empty blocks yields nothing. -/
theorem attr_filter_eq_nil (remote : RemoteState) :
    ∀ (l : List (String × SchemaCollection)) (K : String),
      (∀ x ∈ l, toKebabCase x.1 = K → attrCreatesOf remote x = []) →
      (l.flatMap (attrCreatesOf remote)).filter (fun a => a.collection_id == K) = [] := by
  intro l
  induction l with
  | nil => intro K _; rfl
  | cons hd l ih =>
      intro K h
      rw [List.flatMap_cons, List.filter_append]
      rw [ih K (fun x hx => h x (List.mem_cons_of_mem _ hx))]
      rw [List.append_nil]
      by_cases hk : toKebabCase hd.1 = K
      · rw [h hd (List.mem_cons_self hd l) hk]
        rfl
      · apply List.filter_eq_nil_iff.mpr
        intro e he
        have := attrCreatesOf_collection_id he
        simp only [this]
        simpa using hk

/-- Filtering index creates analogously. -/
theorem index_filter_eq_nil (md5hex : String → String) (remote : RemoteState) :
    ∀ (l : List (String × SchemaCollection)) (K : String),
      (∀ x ∈ l, toKebabCase x.1 = K → indexCreatesOf md5hex remote x = []) →
      (l.flatMap (indexCreatesOf md5hex remote)).filter
        (fun i => i.collection_id == K) = [] := by
  intro l
  induction l with
  | nil => intro K _; rfl
  | cons hd l ih =>
      intro K h
      rw [List.flatMap_cons, List.filter_append]
      rw [ih K (fun x hx => h x (List.mem_cons_of_mem _ hx))]
      rw [List.append_nil]
      by_cases hk : toKebabCase hd.1 = K
      · rw [h hd (List.mem_cons_self hd l) hk]
        rfl
      · apply List.filter_eq_nil_iff.mpr
        intro e he
        have := indexCreatesOf_collection_id he
        simp only [this]
        simpa using hk

/-- With pairwise-distinct kebab ids, the collection creates filtered to a
remotely-absent declared collection's id are exactly its single entry. -/
theorem coll_filter_eq_single (remote : RemoteState) :
    ∀ (l : List (String × SchemaCollection)) (nc : String × SchemaCollection),
      nc ∈ l →
      (l.map (fun x => toKebabCase x.1)).Nodup →
      remoteGet remote (toKebabCase nc.1) = none →
      (l.filterMap (collCreateOf remote)).filter (fun c => c.id == toKebabCase nc.1)
        = [mkCollectionCreate nc.1 nc.2] := by
  intro l
  induction l with
  | nil => intro nc hmem; cases hmem
  | cons hd l ih =>
      intro nc hmem hnodup hnone
      rw [List.filterMap_cons]
      rcases List.mem_cons.mp hmem with rfl | htail
      · rw [collCreateOf_of_none hnone]
        have hid : ((mkCollectionCreate nc.1 nc.2).id == toKebabCase nc.1) = true := by
          simp [mkCollectionCreate]
        rw [List.filter_cons, hid]
        have hrest : (l.filterMap (collCreateOf remote)).filter
            (fun c => c.id == toKebabCase nc.1) = [] := by
          apply coll_filter_eq_nil
          intro x hx hkx
          have hnotmem := (List.nodup_cons.mp hnodup).1
          have hmm : toKebabCase x.1 ∈ List.map (fun y => toKebabCase y.1) l :=
            List.mem_map_of_mem _ hx
          rw [hkx] at hmm
          exact hnotmem hmm
        rw [hrest]
        simp
      · have hhd : toKebabCase hd.1 ≠ toKebabCase nc.1 := by
          intro heq
          have hnotmem := (List.nodup_cons.mp hnodup).1
          have hmm : toKebabCase nc.1 ∈ List.map (fun y => toKebabCase y.1) l :=
            List.mem_map_of_mem _ htail
          rw [← heq] at hmm
          exact hnotmem hmm
        have hrest := ih nc htail (List.nodup_cons.mp hnodup).2 hnone
        cases hc : collCreateOf remote hd with
        | none => exact hrest
        | some c =>
            have hne : (c.id == toKebabCase nc.1) = false := by
              rw [collCreateOf_some_id hc]
              exact beq_eq_false_iff_ne.mpr hhd
            rw [List.filter_cons, hne]
            simpa using hrest

/-- C4: a declared collection whose kebab id is absent from the remote
state produces exactly one `CollectionCreate` and no per-attribute or
per-index entries for that id (given the declared kebab ids are pairwise
distinct); for a remotely-present collection, each declared
non-relationship attribute whose name is absent from the remote attribute
key set is emitted as an `AttributeCreate`. -/
theorem calculateChanges_spec (md5hex : String → String) (schema : Schema)
    (remote : RemoteState)
    (hnodup : (schema.collections.map (fun nc => toKebabCase nc.1)).Nodup) :
    (∀ nc ∈ schema.collections, remoteGet remote (toKebabCase nc.1) = none →
       ((calculateChanges md5hex schema remote).collections.filter
           (fun c => c.id == toKebabCase nc.1)) = [mkCollectionCreate nc.1 nc.2] ∧
       ((calculateChanges md5hex schema remote).attributes.filter
           (fun a => a.collection_id == toKebabCase nc.1)) = [] ∧
       ((calculateChanges md5hex schema remote).indexes.filter
           (fun i => i.collection_id == toKebabCase nc.1)) = []) ∧
    (∀ nc ∈ schema.collections, ∀ rc, remoteGet remote (toKebabCase nc.1) = some rc →
       ∀ na ∈ nc.2.attributes, na.2.relationship = none →
         (rc.attributes.map RemoteAttr.key).contains na.1 = false →
         mkAttributeCreate (toKebabCase nc.1) na.1 na.2
           ∈ (calculateChanges md5hex schema remote).attributes) := by
  constructor
  · intro nc hnc hnone
    refine ⟨coll_filter_eq_single remote schema.collections nc hnc hnodup hnone, ?_, ?_⟩
    · apply attr_filter_eq_nil
      intro x hx hkx
      have hxnc : x = nc :=
        List.inj_on_of_nodup_map hnodup hx hnc hkx
      subst hxnc
      exact attrCreatesOf_of_none hnone
    · apply index_filter_eq_nil
      intro x hx hkx
      have hxnc : x = nc :=
        List.inj_on_of_nodup_map hnodup hx hnc hkx
      subst hxnc
      exact indexCreatesOf_of_none hnone
  · intro nc hnc rc hrc na hna hrel hniw
    show mkAttributeCreate (toKebabCase nc.1) na.1 na.2
      ∈ schema.collections.flatMap (attrCreatesOf remote)
    apply List.mem_flatMap.mpr
    refine ⟨nc, hnc, ?_⟩
    unfold attrCreatesOf
    rw [hrc]
    apply List.mem_filterMap.mpr
    refine ⟨na, hna, ?_⟩
    have h1 : na.2.relationship.isSome = false := by rw [hrel]; rfl
    simp [h1]
    simpa using hniw

/-- Witness for `calculateChanges_spec`: a schema with a new collection and
a present collection missing one plain attribute. -/
theorem calculateChanges_spec_witness :
    ((calculateChanges (fun _ => "") ⟨[("Posts", ⟨"Posts", [("title",
        ⟨"String", false, true, some 255, none, none⟩)], []⟩)]⟩
      []).collections.filter (fun c => c.id == "posts"))
      = [mkCollectionCreate "Posts" ⟨"Posts", [("title",
          ⟨"String", false, true, some 255, none, none⟩)], []⟩] ∧
    mkAttributeCreate "users" "email" ⟨"String", false, true, none, none, none⟩
      ∈ (calculateChanges (fun _ => "") ⟨[("Users", ⟨"Users", [("email",
          ⟨"String", false, true, none, none, none⟩)], []⟩)]⟩
        [("users", ⟨[⟨"name", "string"⟩], []⟩)]).attributes := by
  constructor
  · exact ((calculateChanges_spec (fun _ => "")
      ⟨[("Posts", ⟨"Posts", [("title", ⟨"String", false, true, some 255, none, none⟩)], []⟩)]⟩
      [] (by decide)).1
      ("Posts", ⟨"Posts", [("title", ⟨"String", false, true, some 255, none, none⟩)], []⟩)
      (by decide) (by decide)).1
  · exact (calculateChanges_spec (fun _ => "")
      ⟨[("Users", ⟨"Users", [("email", ⟨"String", false, true, none, none, none⟩)], []⟩)]⟩
      [("users", ⟨[⟨"name", "string"⟩], []⟩)] (by decide)).2
      ("Users", ⟨"Users", [("email", ⟨"String", false, true, none, none, none⟩)], []⟩)
      (by decide) ⟨[⟨"name", "string"⟩], []⟩ (by decide)
      ("email", ⟨"String", false, true, none, none, none⟩) (by decide) rfl (by decide)

/-- C5: phase separation of relationships.  (i) `remoteRelationshipKeys`
holds a key exactly when the remote collection has an attribute of type
`relationship` with that key.  (ii) Every `AttributeCreate` emitted by
`calculateChanges` (phase 1) stems from a declared attribute carrying no
relationship decorator — a relationship attribute is never emitted.
(iii) For a declared relationship attribute, `calculateRelationships`
emits its pending record exactly when the remote collection has no
relationship attribute with the same key (declared kebab ids being
pairwise distinct, as JS object keys are unique). -/
theorem relationship_phase_separation (md5hex : String → String) (schema : Schema)
    (remote : RemoteState)
    (h1 : (schema.collections.map (fun nc => toKebabCase nc.1)).Nodup) :
    (∀ collId k, ((remoteRelationshipKeys remote collId).contains k = true ↔
       ∃ rc, remoteGet remote collId = some rc ∧
         ∃ ra ∈ rc.attributes, ra.type = "relationship" ∧ ra.key = k)) ∧
    (∀ e ∈ (calculateChanges md5hex schema remote).attributes,
       ∃ nc ∈ schema.collections, ∃ a : SchemaAttr,
         (e.key, a) ∈ nc.2.attributes ∧ a.relationship = none ∧
         e.collection_id = toKebabCase nc.1) ∧
    (∀ nc ∈ schema.collections, ∀ na ∈ nc.2.attributes, ∀ rel,
       na.2.relationship = some rel →
       (mkPendingRel (toKebabCase nc.1) na.1 na.2 rel
           ∈ calculateRelationships schema remote
        ↔ (remoteRelationshipKeys remote (toKebabCase nc.1)).contains na.1 = false)) := by
  refine ⟨?_, ?_, ?_⟩
  · intro collId k
    unfold remoteRelationshipKeys
    cases hr : remoteGet remote collId with
    | none => simp
    | some rc =>
        simp [List.mem_filter]
        constructor
        · rintro ⟨ra, ⟨hmem, hty⟩, hkey⟩
          exact ⟨ra, hmem, hty, hkey⟩
        · rintro ⟨ra, hmem, hty, hkey⟩
          exact ⟨ra, ⟨hmem, hty⟩, hkey⟩
  · intro e he
    obtain ⟨nc, hnc, hblock⟩ := List.mem_flatMap.mp he
    unfold attrCreatesOf at hblock
    split at hblock
    · cases hblock
    · obtain ⟨na, hna, hsome⟩ := List.mem_filterMap.mp hblock
      split at hsome
      · cases hsome
      · split at hsome
        · cases hsome
        · cases hsome
          refine ⟨nc, hnc, na.2, ?_, ?_, rfl⟩
          · exact hna
          · rename_i hno _
            cases hv : na.2.relationship with
            | none => rfl
            | some r => rw [hv] at hno; simp at hno
  · intro nc hnc na hna rel hrel
    constructor
    · intro hmem
      obtain ⟨nc2, hnc2, hblock⟩ := List.mem_flatMap.mp hmem
      obtain ⟨na2, hna2, hsome⟩ := List.mem_filterMap.mp hblock
      split at hsome
      · cases hsome
      · split at hsome
        · cases hsome
        · rename_i hcont
          have heq := Option.some.inj hsome
          have hcoll : toKebabCase nc2.1 = toKebabCase nc.1 :=
            congrArg PendingRel.collection heq
          have hkey : na2.1 = na.1 := congrArg PendingRel.key heq
          have hnc2nc : nc2 = nc :=
            List.inj_on_of_nodup_map h1 hnc2 hnc hcoll
          subst hnc2nc
          rw [hkey] at hcont
          simpa using hcont
    · intro hcont
      show mkPendingRel (toKebabCase nc.1) na.1 na.2 rel
        ∈ schema.collections.flatMap (pendingRelsOf remote)
      apply List.mem_flatMap.mpr
      refine ⟨nc, hnc, ?_⟩
      unfold pendingRelsOf
      apply List.mem_filterMap.mpr
      refine ⟨na, hna, ?_⟩
      rw [hrel]
      simp only [hcont]
      rfl

/-- Witness for `relationship_phase_separation`: a schema declaring one
relationship attribute against an empty remote emits its pending record,
and against a remote already holding the relationship emits nothing. -/
theorem relationship_phase_separation_witness :
    (mkPendingRel "users" "posts"
        ⟨"Posts", false, false, none, none, some ⟨some "Posts", some "one-to-many", none, none⟩⟩
        ⟨some "Posts", some "one-to-many", none, none⟩
      ∈ calculateRelationships
          ⟨[("Users", ⟨"Users", [("posts", ⟨"Posts", false, false, none, none,
              some ⟨some "Posts", some "one-to-many", none, none⟩⟩)], []⟩)]⟩
          []) ∧
    ¬ (mkPendingRel "users" "posts"
        ⟨"Posts", false, false, none, none, some ⟨some "Posts", some "one-to-many", none, none⟩⟩
        ⟨some "Posts", some "one-to-many", none, none⟩
      ∈ calculateRelationships
          ⟨[("Users", ⟨"Users", [("posts", ⟨"Posts", false, false, none, none,
              some ⟨some "Posts", some "one-to-many", none, none⟩⟩)], []⟩)]⟩
          [("users", ⟨[⟨"posts", "relationship"⟩], []⟩)]) := by
  constructor
  · exact ((relationship_phase_separation (fun _ => "")
      ⟨[("Users", ⟨"Users", [("posts", ⟨"Posts", false, false, none, none,
          some ⟨some "Posts", some "one-to-many", none, none⟩⟩)], []⟩)]⟩
      [] (by decide)).2.2
      ("Users", ⟨"Users", [("posts", ⟨"Posts", false, false, none, none,
          some ⟨some "Posts", some "one-to-many", none, none⟩⟩)], []⟩) (by decide)
      ("posts", ⟨"Posts", false, false, none, none,
          some ⟨some "Posts", some "one-to-many", none, none⟩⟩) (by decide)
      ⟨some "Posts", some "one-to-many", none, none⟩ rfl).mpr (by decide)
  · intro hmem
    have h := ((relationship_phase_separation (fun _ => "")
      ⟨[("Users", ⟨"Users", [("posts", ⟨"Posts", false, false, none, none,
          some ⟨some "Posts", some "one-to-many", none, none⟩⟩)], []⟩)]⟩
      [("users", ⟨[⟨"posts", "relationship"⟩], []⟩)] (by decide)).2.2
      ("Users", ⟨"Users", [("posts", ⟨"Posts", false, false, none, none,
          some ⟨some "Posts", some "one-to-many", none, none⟩⟩)], []⟩) (by decide)
      ("posts", ⟨"Posts", false, false, none, none,
          some ⟨some "Posts", some "one-to-many", none, none⟩⟩) (by decide)
      ⟨some "Posts", some "one-to-many", none, none⟩ rfl).mp hmem
    revert h
    decide

/-- C6 counterexample: a collection-creation error whose transport status
is 409 but whose stderr does not contain `already exists` aborts the whole
run even though the `force` flag is set — the claim promises a no-op
success for status 409 and a warn-and-continue under `force`, but
`applyChanges` checks only the stderr text for collections and never
consults `force`. -/
theorem applyChanges_force_cex :
    (⟨some 409, some "transport conflict", "conflict"⟩ : AwError).status = some 409 ∧
    stderrHasAlreadyExists ⟨some 409, some "transport conflict", "conflict"⟩ = false ∧
    applyChanges (fun _ => "") true
      ⟨fun _ => .error ⟨some 409, some "transport conflict", "conflict"⟩,
       fun _ _ _ => .error ⟨some 409, some "transport conflict", "conflict"⟩⟩
      "db" ⟨[⟨"users", "Users", [], []⟩], [], []⟩
      = .error ⟨some 409, some "transport conflict", "conflict"⟩ := by
  exact ⟨rfl, by decide, rfl⟩

/-- C6 (amended): `applyChanges` is independent of the `force` flag.  A
collection or attribute creation error is a no-op success (the loop
continues with the next entity) exactly when its stderr contains
`already exists`, an index creation error exactly when its transport
status is 409; any other creation error aborts the whole run. -/
theorem applyChanges_amended :
    (∀ (md5hex : String → String) (f g : Bool) (client : AwClient) (dbId : String)
       (changes : Changes),
       applyChanges md5hex f client dbId changes
         = applyChanges md5hex g client dbId changes) ∧
    (∀ (client : AwClient) (dbId : String) (c : CollectionCreate)
       (rest : List CollectionCreate) (e : AwError),
       client.exec (createCollectionCommand dbId c) = .error e →
       ((stderrHasAlreadyExists e = true →
          applyCollections client dbId (c :: rest)
            = (applyCollections client dbId rest).map
                (fun evs => ⟨.collection, false, c.name⟩ :: evs)) ∧
        (stderrHasAlreadyExists e = false →
          applyCollections client dbId (c :: rest) = .error e))) ∧
    (∀ (client : AwClient) (dbId : String) (a : AttributeCreate)
       (rest : List AttributeCreate) (cmd : String) (e : AwError),
       buildAttributeCommand dbId a = some cmd →
       client.exec cmd = .error e →
       ((stderrHasAlreadyExists e = true →
          applyAttributes client dbId (a :: rest)
            = (applyAttributes client dbId rest).map
                (fun evs => ⟨.attribute, false, a.collection_id ++ "." ++ a.key⟩ :: evs)) ∧
        (stderrHasAlreadyExists e = false →
          applyAttributes client dbId (a :: rest) = .error e))) ∧
    (∀ (md5hex : String → String) (client : AwClient) (dbId : String)
       (i : IndexCreate) (rest : List IndexCreate) (e : AwError),
       client.ensureIndex dbId i.collection_id
           ⟨sanitizeIndexKey md5hex (some i.key),
            if i.type = "" then "key" else i.type, i.attributes,
            (i.orders.filterMap id).filter (fun o => o ≠ "")⟩ = .error e →
       (((e.status == some 409) = true →
          applyIndexes md5hex client dbId (i :: rest)
            = (applyIndexes md5hex client dbId rest).map
                (fun evs => ⟨.index, false, i.collection_id ++ "." ++ i.key⟩ :: evs)) ∧
        ((e.status == some 409) = false →
          applyIndexes md5hex client dbId (i :: rest) = .error e))) ∧
    (∀ (md5hex : String → String) (f : Bool) (client : AwClient) (dbId : String)
       (changes : Changes) (e : AwError),
       applyCollections client dbId changes.collections = .error e →
       applyChanges md5hex f client dbId changes = .error e) := by
  refine ⟨fun _ _ _ _ _ _ => rfl, ?_, ?_, ?_, ?_⟩
  · intro client dbId c rest e he
    constructor
    · intro hs
      simp only [applyCollections, he, hs]
      simp
    · intro hs
      simp only [applyCollections, he, hs]
      simp
  · intro client dbId a rest cmd e hcmd he
    constructor
    · intro hs
      simp only [applyAttributes, hcmd, he, hs]
      simp
    · intro hs
      simp only [applyAttributes, hcmd, he, hs]
      simp
  · intro md5hex client dbId i rest e he
    constructor
    · intro hs
      simp only [applyIndexes, he, hs]
      simp
    · intro hs
      simp only [applyIndexes, he, hs]
      simp
  · intro md5hex f client dbId changes e he
    simp only [applyChanges, he]

/-- Witness for `applyChanges_amended`: an `already exists` collection
error is skipped with the loop continuing (here: finishing), any other
collection error aborts. -/
theorem applyChanges_amended_witness :
    applyCollections
      ⟨fun _ => .error ⟨none, some "Collection already exists", "exists"⟩,
       fun _ _ _ => .ok ()⟩ "db" [⟨"users", "Users", [], []⟩]
      = .ok [⟨.collection, false, "Users"⟩] ∧
    applyCollections
      ⟨fun _ => .error ⟨none, some "network down", "down"⟩,
       fun _ _ _ => .ok ()⟩ "db" [⟨"users", "Users", [], []⟩]
      = .error ⟨none, some "network down", "down"⟩ := by
  constructor
  · have h := (applyChanges_amended.2.1
      ⟨fun _ => .error ⟨none, some "Collection already exists", "exists"⟩,
       fun _ _ _ => .ok ()⟩ "db" ⟨"users", "Users", [], []⟩ []
      ⟨none, some "Collection already exists", "exists"⟩ rfl).1 (by decide)
    rw [h]
    rfl
  · exact (applyChanges_amended.2.1
      ⟨fun _ => .error ⟨none, some "network down", "down"⟩,
       fun _ _ _ => .ok ()⟩ "db" ⟨"users", "Users", [], []⟩ []
      ⟨none, some "network down", "down"⟩ rfl).2 (by decide)

/-- C7 counterexample: an index deletion failing with `permission denied`
(clearly not a not-found outcome) is logged as already-removed; the
rollback run still completes and flips the history record to
`rolled_back`, while the claim demands that deletion failures other than
not-found be propagated.  The `catch` around each deletion is
unconditional. -/
theorem rollback_tolerates_all_failures_cex :
    rollbackOp
      ⟨fun _ => .error ⟨none, some "permission denied", "permission denied"⟩,
       fun _ _ _ => .ok ()⟩
      "db"
      [⟨"r1", "applied", some ⟨"apply", ⟨[], [], [⟨"users", "idx_email"⟩]⟩⟩⟩]
      = (.rolledBack [⟨.index, false, "users.idx_email"⟩],
         [⟨"r1", "rolled_back", some ⟨"apply", ⟨[], [], [⟨"users", "idx_email"⟩]⟩⟩⟩]) := by
  rfl

/-- C7 (amended): for the newest `applied` history record of type `apply`,
rollback attempts to delete the recorded indexes, then attributes, then
collections (each list in recorded order), tolerating every deletion
failure as an already-removed no-op; it then flips the record's status to
`rolled_back` in place — the store keeps its length, the flipped record is
present, and unrelated records are untouched. -/
theorem rollback_amended (client : AwClient) (dbId : String) (store : List HistEntry)
    (h : HistEntry) (p : HistoryPayload)
    (h1 : latestHistory store "applied" = some h)
    (h2 : h.payload = some p) (h3 : p.ptype = "apply") :
    rollbackOp client dbId store
      = (.rolledBack (
          p.changes.indexes.map (fun i =>
            ⟨.index, isOkE (client.exec (deleteIndexCommand dbId i.collection_id i.key)),
              i.collection_id ++ "." ++ i.key⟩)
          ++ p.changes.attributes.map (fun a =>
            ⟨.attribute,
              isOkE (client.exec (deleteAttributeCommand dbId a.collection_id a.key)),
              a.collection_id ++ "." ++ a.key⟩)
          ++ p.changes.collections.map (fun c =>
            (⟨.collection, isOkE (client.exec (deleteCollectionCommand dbId c.id)),
              c.id⟩ : DeleteEvent))),
         updateHistoryStatus store h.recordId "rolled_back") ∧
    (updateHistoryStatus store h.recordId "rolled_back").length = store.length ∧
    { h with status := "rolled_back" } ∈ updateHistoryStatus store h.recordId "rolled_back" ∧
    (∀ d ∈ store, d.recordId ≠ h.recordId →
       d ∈ updateHistoryStatus store h.recordId "rolled_back") := by
  refine ⟨?_, ?_, ?_, ?_⟩
  · have hne : (p.ptype != "apply") = false := by rw [h3]; rfl
    simp only [rollbackOp, h1, h2, hne]
    simp
  · simp [updateHistoryStatus]
  · have hmem : h ∈ store := List.mem_of_find?_eq_some h1
    have hmap := List.mem_map_of_mem
      (fun d => if d.recordId == h.recordId then { d with status := "rolled_back" } else d)
      hmem
    simpa [updateHistoryStatus] using hmap
  · intro d hd hne
    have hmap := List.mem_map_of_mem
      (fun d => if d.recordId == h.recordId then { d with status := "rolled_back" } else d)
      hd
    have hbe : (d.recordId == h.recordId) = false := beq_eq_false_iff_ne.mpr hne
    simpa [updateHistoryStatus, hbe] using hmap

/-- Witness for `rollback_amended`: one applied apply-run with a single
collection is rolled back, its record flipped in place. -/
theorem rollback_amended_witness :
    rollbackOp ⟨fun _ => .ok (), fun _ _ _ => .ok ()⟩ "db"
      [⟨"r2", "applied", some ⟨"apply", ⟨[⟨"users", "Users"⟩], [], []⟩⟩⟩]
      = (.rolledBack [⟨.collection, true, "users"⟩],
         [⟨"r2", "rolled_back", some ⟨"apply", ⟨[⟨"users", "Users"⟩], [], []⟩⟩⟩]) := by
  have h := (rollback_amended ⟨fun _ => .ok (), fun _ _ _ => .ok ()⟩ "db"
    [⟨"r2", "applied", some ⟨"apply", ⟨[⟨"users", "Users"⟩], [], []⟩⟩⟩]
    ⟨"r2", "applied", some ⟨"apply", ⟨[⟨"users", "Users"⟩], [], []⟩⟩⟩
    ⟨"apply", ⟨[⟨"users", "Users"⟩], [], []⟩⟩ rfl rfl rfl).1
  rw [h]
  rfl

end AWM
